import Mathlib

/-!
Shallow embedding, in Lean 4, of the request-shaping pipeline of
`aegra-dragon-chat`: the tool-name sanitizer, the JSON-Schema argument
compiler, the webhook POST result shaping, the conversation validator,
the store namespace scoping, the dynamic prompt base resolution and the
pre-agent middleware tool provisioning / tool-choice policy.

Python strings are modelled as `String` / `List Char` (code points, which
is what Python indexing, slicing and `len` operate on), JSON values as an
inductive `JValue`, Python dicts as insertion-ordered association lists.
-/

set_option autoImplicit false

namespace DragonChat

/-! ## Characters, Python `str.strip`, and regex-run collapsing -/

/-- The character class `[A-Za-z0-9_-]` of the OpenAI tool-name pattern
(`_OPENAI_TOOL_NAME_RE`). -/
def isToolNameChar (c : Char) : Bool :=
  c.isAlpha || c.isDigit || c = '_' || c = '-'

/-- The character class `[A-Za-z0-9_]` used by `_safe_field_name`'s regex. -/
def isIdentChar (c : Char) : Bool :=
  c.isAlpha || c.isDigit || c = '_'

/-- Python `s.strip(chars)`: drop the characters satisfying `p` from both
ends of the string. -/
def pyStrip (p : Char → Bool) (cs : List Char) : List Char :=
  ((cs.dropWhile p).reverse.dropWhile p).reverse

/-- `re.sub(r"[^…]+", "_", s)`: replace every maximal run of characters
outside the class `valid` with a single underscore.  The boolean argument
records whether the previous character was part of an invalid run. -/
def collapseRuns (valid : Char → Bool) : Bool → List Char → List Char
  | _, [] => []
  | inRun, c :: rest =>
    if valid c then c :: collapseRuns valid false rest
    else if inRun then collapseRuns valid true rest
    else '_' :: collapseRuns valid true rest

/-- `^[A-Za-z0-9_-]{1,64}$` (`_OPENAI_TOOL_NAME_RE.match`) on a character
list. -/
def matchesPatternChars (cs : List Char) : Bool :=
  !cs.isEmpty && cs.length ≤ 64 && cs.all isToolNameChar

/-- `^[A-Za-z0-9_-]{1,64}$` (`_OPENAI_TOOL_NAME_RE.match`). -/
def matchesToolNamePattern (s : String) : Bool :=
  matchesPatternChars s.toList

/-! ## `_sanitize_tool_name` (build_tool_from_config.py, lines 17–43) -/

/-- Embeds `_sanitize_tool_name` on the string's characters.
`name.strip()` is modelled with `pyStrip Char.isWhitespace`. -/
def sanitizeToolNameChars (cs : List Char) : List Char × Bool :=
  let original := pyStrip Char.isWhitespace cs
  if original.isEmpty then ("tool".toList, true)
  else
    let s1 := collapseRuns isToolNameChar false original
    let s2 := pyStrip (fun c => c == '_') s1
    let s3 := if s2.isEmpty then "tool".toList else s2
    let s4 := s3.take 64
    let s5 := if s4.headD ' ' = '-' then ("tool".toList ++ s4).take 64 else s4
    let changed := s5 != original
    if matchesPatternChars s5 then (s5, changed)
    else ("tool".toList, true)

/-- Embeds `_sanitize_tool_name`.  Returns `(sanitized_name, changed)`. -/
def sanitizeToolName (name : String) : String × Bool :=
  let r := sanitizeToolNameChars name.toList
  (String.mk r.1, r.2)

/-! ## JSON values and insertion-ordered dicts -/

/-- JSON values; Python dicts are insertion-ordered association lists.
Numbers other than integers are carried as rationals. -/
inductive JValue where
  | null
  | bool (b : Bool)
  | int (n : Int)
  | num (q : Rat)
  | str (s : String)
  | arr (xs : List JValue)
  | obj (kvs : List (String × JValue))

/-- First value stored under key `k`, if any. -/
def lookupAssoc (kvs : List (String × JValue)) (k : String) : Option JValue :=
  (kvs.find? (fun kv => kv.1 == k)).map (·.2)

/-- Python `dict.setdefault k v`: append `(k, v)` only when `k` is absent. -/
def setdefaultKey (kvs : List (String × JValue)) (k : String) (v : JValue) :
    List (String × JValue) :=
  if kvs.any (fun kv => kv.1 == k) then kvs else kvs ++ [(k, v)]

/-! ## `_safe_field_name` and the schema compiler
(build_tool_from_config.py, lines 46–60 and 146–178) -/

/-- Python `str.isidentifier` restricted to the ASCII strings produced by
the sanitizing regex: nonempty, first character a letter or underscore,
remaining characters letters, digits or underscores. -/
def isPyIdentifier (cs : List Char) : Bool :=
  match cs with
  | [] => false
  | c :: rest => (c.isAlpha || c = '_') && rest.all isIdentChar

/-- The `while candidate in used` disambiguation loop of `_safe_field_name`,
trying `base_2`, `base_3`, … — with fuel `used.length + 1`, which is enough
since those candidates are pairwise distinct and `used` is finite. -/
def disambiguate (base : String) (used : List String) : Nat → Nat → String
  | 0, i => base ++ "_" ++ toString i
  | fuel + 1, i =>
    let candidate := base ++ "_" ++ toString i
    if used.contains candidate then disambiguate base used fuel (i + 1) else candidate

/-- Embeds `_safe_field_name`: derive a Pydantic-safe field identifier for a
JSON-Schema property name, distinct from every name in `used`. -/
def safeFieldName (name : String) (used : List String) : String :=
  let candidate := collapseRuns isIdentChar false name.toList
  let candidate :=
    if candidate.isEmpty || (candidate.headD ' ').isDigit then "field_".toList ++ candidate
    else candidate
  let candidate := if isPyIdentifier candidate then String.mk candidate else "field"
  if used.contains candidate then disambiguate candidate used (used.length + 1) 2
  else candidate

/-- One compiled argument field: Pydantic-safe identifier, the original
JSON-Schema property name (kept as the field's alias), whether the original
name was listed in `required`, and the declared JSON-Schema `type`. -/
structure FieldSpec where
  safeName : String
  origName : String
  required : Bool
  jsonType : Option String
deriving DecidableEq

/-- The field-building loop of `build_tool_from_config` (lines 149–175):
for each property, in order, derive a fresh safe name, record the original
name as alias, and mark it required iff the original name is in `required`. -/
def compileFieldsAux (required : List String) :
    List (String × Option String) → List String → List FieldSpec
  | [], _ => []
  | (origName, jt) :: rest, used =>
    let safe := safeFieldName origName used
    { safeName := safe, origName := origName,
      required := required.contains origName, jsonType := jt }
      :: compileFieldsAux required rest (used ++ [safe])

/-- Compile a JSON-Schema `properties` map (property name ↦ declared type,
`none` for a missing or unrecognised `type`) plus a `required` list. -/
def compileFields (props : List (String × Option String)) (required : List String) :
    List FieldSpec :=
  compileFieldsAux required props []

/-- Best-effort type acceptance mirroring the `json_type → py_type` mapping:
unknown or missing types validate anything; `number` also accepts integers
(Pydantic coerces `int` to `float`). -/
def typeOk (jt : Option String) (v : JValue) : Bool :=
  match jt, v with
  | some "string", .str _ => true
  | some "string", _ => false
  | some "integer", .int _ => true
  | some "integer", _ => false
  | some "number", .num _ => true
  | some "number", .int _ => true
  | some "number", _ => false
  | some "boolean", .bool _ => true
  | some "boolean", _ => false
  | some "object", .obj _ => true
  | some "object", _ => false
  | some "array", .arr _ => true
  | some "array", _ => false
  | _, _ => true

/-- Validation of one field of `ArgsModel(**kwargs)`: the input is looked
up under the alias (the original property name) or, `populate_by_name`,
under the safe identifier; a missing required field is an error, a missing
optional field defaults to `null`. -/
def validateField (input : List (String × JValue)) (f : FieldSpec) :
    Except String JValue :=
  match (lookupAssoc input f.origName).orElse (fun _ => lookupAssoc input f.safeName) with
  | some v =>
    if typeOk f.jsonType v then .ok v
    else .error ("invalid type for " ++ f.origName)
  | none =>
    if f.required then .error ("missing required field " ++ f.origName)
    else .ok .null

/-- Validate each field in declaration order, pairing the original
property name with the validated value; the first failure aborts
(`ArgsModel(**kwargs)` raising a `ValidationError`). -/
def validatedPairs (input : List (String × JValue)) :
    List FieldSpec → Except String (List (String × JValue))
  | [] => .ok []
  | f :: fs =>
    match validateField input f with
    | .error e => .error e
    | .ok v =>
      match validatedPairs input fs with
      | .error e => .error e
      | .ok rest => .ok ((f.origName, v) :: rest)

/-- `ArgsModel(**kwargs).model_dump(by_alias=True, exclude_none=True)`:
re-emit the validated arguments keyed by the original property names,
dropping null-valued fields.  Extra input keys are ignored
(`extra="ignore"`). -/
def materializeArgs (fields : List FieldSpec) (input : List (String × JValue)) :
    Except String (List (String × JValue)) :=
  match validatedPairs input fields with
  | .error e => .error e
  | .ok vals => .ok (vals.filter (fun kv => match kv.2 with | .null => false | _ => true))

/-! ## `_do_post` (build_tool_from_config.py, lines 180–221) -/

/-- The observable outcome of `requests.post`: either a raised
`RequestException` (carrying `str(exc)` and `type(exc).__name__`, e.g.
`"Timeout"`), or a response with an HTTP status code, a body text, and the
result of `resp.json()` (`none` when the body is not valid JSON). -/
inductive HttpOutcome where
  | exn (msg : String) (excType : String)
  | resp (statusCode : Nat) (text : String) (jsonData : Option JValue)

/-- `resp.raise_for_status()` raises `HTTPError` exactly for status codes
in `[400, 600)`. -/
def raisesForStatus (code : Nat) : Bool :=
  400 ≤ code && code < 600

/-- `str(exc)` of the `HTTPError` raised by `raise_for_status`; the exact
wording comes from the `requests` library and is modelled by the
information it carries (status code and URL). -/
def httpErrorText (code : Nat) (url : String) : String :=
  toString code ++ " Error for url: " ++ url

/-- Embeds `_do_post`.  `timeoutVal` is the resolved timeout (a
`(connect, read)` pair or a scalar) and `elapsedMs` the measured elapsed
time, both passed in since wall-clock measurement is outside the model. -/
def doPost (url : String) (timeoutVal : JValue) (outcome : HttpOutcome)
    (elapsedMs : Nat) : List (String × JValue) :=
  match outcome with
  | .exn msg excType =>
    [("status", .str "error"), ("error", .str msg), ("error_type", .str excType),
     ("url", .str url), ("timeout", timeoutVal), ("elapsed_ms", .int elapsedMs)]
  | .resp code text jsonData =>
    if raisesForStatus code then
      [("status", .str "error"), ("error", .str (httpErrorText code url)),
       ("error_type", .str "HTTPError"), ("status_code", .int code),
       ("body", .str text), ("url", .str url), ("elapsed_ms", .int elapsedMs)]
    else
      let data : JValue :=
        match jsonData with
        | none => .obj [("status", .str "ok"), ("status_code", .int code), ("text", .str text)]
        | some d => d
      match data with
      | .obj kvs => setdefaultKey kvs "elapsed_ms" (.int elapsedMs)
      | d => [("status", .str "ok"), ("data", d), ("elapsed_ms", .int elapsedMs)]

/-- The `"status"` field of a `_do_post` result, when it is a string. -/
def statusValue (r : List (String × JValue)) : Option String :=
  match lookupAssoc r "status" with
  | some (.str s) => some s
  | _ => none

/-! ## `apply_user_namespace_scoping` (agent_server/api/store.py, lines 211–223) -/

/-- Embeds `apply_user_namespace_scoping`. -/
def applyUserNamespaceScoping (userId : String) (ns : List String) : List String :=
  if ns.isEmpty then
    -- Default to the user's private namespace
    ["users", userId]
  else if ns.headD "" == "users" && decide (2 ≤ ns.length) && ns.getD 1 "" == userId then
    -- Allow explicit user namespaces
    ns
  else
    -- "For development, allow all namespaces (remove this for production)"
    ns

/-! ## Base-prompt resolution of `inject_dynamic_prompt`
(dynamic_prompt.py, lines 28–57) -/

/-- The provider `config` object carried by the turn; `promptSystemPrompt`
models `config["prompt"]["system_prompt"]`, `systemPrompt` models
`config["system_prompt"]`. -/
structure PromptConfig where
  promptSystemPrompt : Option String := none
  systemPrompt : Option String := none

/-- The runtime context as seen by `inject_dynamic_prompt`: absent (or of
an unrecognised type), a structured `DragonAgentContext`, or a plain
mapping. -/
inductive RuntimeCtx where
  | missing
  | structured (systemPrompt : Option String)
  | dict (systemPrompt : Option String)

/-- Python truthiness of an optional string: `None` and `""` are falsy. -/
def pyTruthy (o : Option String) : Bool :=
  match o with
  | some s => !s.isEmpty
  | none => false

/-- Embeds the base-instruction resolution of `inject_dynamic_prompt`
(lines 33–57): `base_prompt` starts as `None`, the config branch may set
it, then — under the comment "Priority 2: fallback to runtime context" —
the source assigns `ctx.system_prompt` unconditionally whenever the
context is a `DragonAgentContext` or a dict, and finally any falsy value
falls back to the default prompt. -/
def resolveBasePrompt (runtimeConfig : Option PromptConfig) (ctx : RuntimeCtx)
    (defaultPrompt : String) : String :=
  let base1 : Option String :=
    match runtimeConfig with
    | some cfg =>
      if pyTruthy cfg.promptSystemPrompt then cfg.promptSystemPrompt
      else if pyTruthy cfg.systemPrompt then cfg.systemPrompt
      else none
    | none => none
  let base2 : Option String :=
    match ctx with
    | .structured sp => sp
    | .dict sp => sp
    | .missing => base1
  if pyTruthy base2 then base2.getD "" else defaultPrompt

/-! ## Conversation messages and `validate_and_clean_messages`
(utils/message_validator.py, lines 11–78) -/

/-- One entry of `AIMessage.tool_calls`: `id` is `tc.get("id")` with `""`
standing for a missing/falsy id, `name` is `tc.get("name")` (`none` when
absent, read with default `"unknown"`). -/
structure PyToolCall where
  id : String
  name : Option String
deriving DecidableEq

/-- `ToolMessage.status`; langchain defaults it to `success`. -/
inductive MsgStatus where
  | success
  | error
deriving DecidableEq

/-- Conversation messages, polymorphic over roles.  A `tool` message
carries `(content, tool_call_id, name, status)`. -/
inductive Msg where
  | user (content : String)
  | system (content : String)
  | ai (content : String) (toolCalls : List PyToolCall)
  | tool (content : String) (toolCallId : String) (name : String) (status : MsgStatus)
deriving DecidableEq

/-- Keep the first occurrence of each element, dropping later duplicates —
the key order of a Python dict comprehension. -/
def dedupFirstAux {α : Type} [BEq α] (seen : List α) : List α → List α
  | [] => []
  | x :: xs =>
    if seen.contains x then dedupFirstAux seen xs
    else x :: dedupFirstAux (seen ++ [x]) xs

/-- `dedupFirst l` lists the distinct elements of `l` in first-occurrence
order. -/
def dedupFirst {α : Type} [BEq α] (l : List α) : List α :=
  dedupFirstAux [] l

/-- The keys of `tool_call_info`: ids of the message's tool calls, falsy
(empty) ids skipped, dict-key (first-occurrence) order. -/
def collectCallIds (tcs : List PyToolCall) : List String :=
  dedupFirst ((tcs.filter (fun tc => tc.id != "")).map (·.id))

/-- `tool_call_info[id]["name"]`: in the dict comprehension the last tool
call with a given id wins; a missing name reads as `"unknown"`. -/
def callName (tcs : List PyToolCall) (id : String) : String :=
  match (tcs.filter (fun tc => tc.id == id)).getLast? with
  | some tc => tc.name.getD "unknown"
  | none => "unknown"

/-- The forward scan of lines 46–54: walk the messages after the assistant
message, collecting tool-message `tool_call_id`s that belong to `ids`,
stopping (exclusive) at the next assistant message. -/
def foundIds (ids : List String) : List Msg → List String
  | [] => []
  | .tool _ tcid _ _ :: rest =>
    if ids.contains tcid then tcid :: foundIds ids rest else foundIds ids rest
  | .ai _ _ :: _ => []
  | _ :: rest => foundIds ids rest

/-- `missing_tool_call_ids = tool_call_ids - found_tool_call_ids`.  Python
iterates this set in unspecified (hash) order; it is modelled in the ids'
first-occurrence order. -/
def missingIds (tcs : List PyToolCall) (rest : List Msg) : List String :=
  let ids := collectCallIds tcs
  ids.filter (fun id => !(foundIds ids rest).contains id)

/-- The content of a synthesized error tool-result (lines 69–73). -/
def missingToolContent (toolName : String) : String :=
  "❌ Error al llamar a la herramienta \x27" ++ toolName ++
    "\x27. La herramienta no respondió correctamente."

/-- The synthesized `ToolMessage` for an unmatched call id.  The source
passes no `status`, so it keeps langchain's default `success` status. -/
def synthToolMsg (tcs : List PyToolCall) (id : String) : Msg :=
  .tool (missingToolContent (callName tcs id)) id (callName tcs id) .success

/-- Embeds `validate_and_clean_messages`: every message is passed through
in order; after an assistant message, one error tool-result is synthesized
for each call id with no matching tool-result before the next assistant
message.  (The source's early `continue` for messages whose id set is
empty coincides with `missingIds` being empty.) -/
def validateAndCleanMessages : List Msg → List Msg
  | [] => []
  | .ai c tcs :: rest =>
    .ai c tcs :: ((missingIds tcs rest).map (synthToolMsg tcs)
      ++ validateAndCleanMessages rest)
  | m :: rest => m :: validateAndCleanMessages rest

/-! ## Pre-agent middleware: tool provisioning and tool-choice policy
(middleware/pre_agent_middleware.py) -/

/-- The slice of a `ToolConfig` dict that the embedded pipeline reads:
`name`, `description`, `url`, and the JSON-Schema `properties` (property
name ↦ declared `type`) and `required` list. -/
structure ToolConfig where
  name : String
  description : String := ""
  url : String
  schemaProps : List (String × Option String) := []
  schemaRequired : List String := []
deriving DecidableEq

/-- `_validate_url` / `urlparse`: accept exactly `http`/`https` URLs with a
nonempty host (netloc up to the first `/`). -/
def validateUrl (url : String) : Bool :=
  let cs := url.toList
  if cs.take 7 == "http://".toList then
    !((cs.drop 7).takeWhile (fun c => c != '/')).isEmpty
  else if cs.take 8 == "https://".toList then
    !((cs.drop 8).takeWhile (fun c => c != '/')).isEmpty
  else false

/-- The note appended to the description when the name was sanitized
(lines 234–239), `{x!r}` rendered with plain quotes. -/
def sanitizedNote (description rawName newName : String) : String :=
  String.mk (pyStrip Char.isWhitespace
    (description ++ "\n\n(Note: original tool name was \x27" ++ rawName ++
      "\x27; sanitized to \x27" ++ newName ++ "\x27 for provider compatibility.)").toList)

/-- The data of the built `StructuredTool`: canonical (sanitized) name,
the raw name kept in metadata, the description, and the compiled argument
fields. -/
structure CompiledTool where
  canonicalName : String
  originalName : String
  description : String
  fields : List FieldSpec
deriving DecidableEq

/-- Embeds `build_tool_from_config` on the typed config slice: sanitize the
name, validate the URL (an invalid URL raises, i.e. yields `.error`),
compile the schema fields, and attach the sanitization note when the name
changed. -/
def buildToolFromConfig (cfg : ToolConfig) : Except String CompiledTool :=
  let sanitized := sanitizeToolName cfg.name
  if !validateUrl cfg.url then .error ("Invalid tool url: " ++ cfg.url)
  else
    .ok { canonicalName := sanitized.1
          originalName := cfg.name
          description :=
            if sanitized.2 then sanitizedNote cfg.description cfg.name sanitized.1
            else cfg.description
          fields := compileFields cfg.schemaProps cfg.schemaRequired }

/-- The payload `_func` serializes for the POST body:
`ArgsModel(**kwargs).model_dump(by_alias=True, exclude_none=True)`. -/
def outboundPostBody (tool : CompiledTool) (input : List (String × JValue)) :
    Except String (List (String × JValue)) :=
  materializeArgs tool.fields input

/-- The provider-facing tool spec produced by `_to_llm_tool_spec`: note
that the source reads `cfg["name"]`, the raw config name.  (The
`parameters` field passes the raw schema through and is not modelled.) -/
structure LlmToolSpec where
  functionName : String
  functionDescription : String
deriving DecidableEq

/-- Embeds `_to_llm_tool_spec`. -/
def toLlmToolSpec (cfg : ToolConfig) : LlmToolSpec :=
  { functionName := cfg.name, functionDescription := cfg.description }

/-- Python dict assignment `d[k] = v`: overwrite in place or append. -/
def dictInsert (m : List (String × CompiledTool)) (k : String) (v : CompiledTool) :
    List (String × CompiledTool) :=
  if m.any (fun kv => kv.1 == k) then
    m.map (fun kv => if kv.1 == k then (k, v) else kv)
  else m ++ [(k, v)]

/-- Embeds `_build_runtime_tooling`: build each config's tool, skipping
failures; store each built tool under `tool.name` (the canonical name) and
record its provider-facing spec. -/
def buildRuntimeTooling (cfgs : List ToolConfig) :
    List (String × CompiledTool) × List LlmToolSpec :=
  cfgs.foldl
    (fun acc cfg =>
      match buildToolFromConfig cfg with
      | .error _ => acc
      | .ok tool => (dictInsert acc.1 tool.canonicalName tool, acc.2 ++ [toLlmToolSpec cfg]))
    ([], [])

/-- Is `m` a tool-result message whose name is one of `toolNames`? -/
def isDynamicToolResult (toolNames : List String) (m : Msg) : Bool :=
  match m with
  | .tool _ _ n _ => toolNames.contains n
  | _ => false

/-- Embeds `_should_force_tool`: walk the state's messages in reverse; any
tool message named like a dynamic tool suppresses forcing. -/
def shouldForceTool (messages : List Msg) (toolNames : List String) : Bool :=
  if toolNames.isEmpty then false
  else !(messages.reverse.any (isDynamicToolResult toolNames))

/-- A resolved `tool_choice` value: a forced specific function, `"auto"`,
or any other caller-supplied value. -/
inductive ToolChoice where
  | forced (name : String)
  | auto
  | other (tag : String)
deriving DecidableEq

/-- Embeds `_resolve_tool_choice`; `originalChoice = none` models a falsy
caller choice, so `original_choice or "auto"` is `Option.getD · .auto`.
The `none` result models the source returning Python `None` when there are
no dynamic tool specs. -/
def resolveToolChoice (messages : List Msg) (toolSpecs : List LlmToolSpec)
    (originalChoice : Option ToolChoice) : Option ToolChoice :=
  if toolSpecs.isEmpty then none
  else
    let toolNames := toolSpecs.map (·.functionName)
    if shouldForceTool messages toolNames then
      match toolNames with
      | [n] => some (.forced n)
      | _ => some .auto
    else some (originalChoice.getD .auto)

/-! ## Theorems -/

/-- C1: the provider-facing spec built by `_to_llm_tool_spec` carries the
raw config name, while the built tool is stored in `dynamic_tools` under
its sanitized canonical name.  For the config named `"My Tool!"` the spec
exposes `"My Tool!"` but the storage key (the canonical name) is
`"My_Tool"` — the two differ, contradicting `name MUST equal
CompiledTool.canonical_name` (the repository's own unit test asserts
`tool_specs[0]["function"]["name"] == tool.name` and fails on this). -/
theorem c1_toolspec_name_not_canonical :
    ((buildRuntimeTooling
        [{ name := "My Tool!", url := "https://example.com/webhook" }]).2.map
      (·.functionName)) = ["My Tool!"]
    ∧ ((buildRuntimeTooling
        [{ name := "My Tool!", url := "https://example.com/webhook" }]).1.map
      Prod.fst) = ["My_Tool"]
    ∧ ("My Tool!" : String) ≠ "My_Tool" := by
  refine ⟨rfl, rfl, ?_⟩; decide

/-- C2: `apply_user_namespace_scoping` maps an empty namespace to
`["users", user_id]` and keeps an already-prefixed namespace, but it
returns every other namespace unchanged (the "For development, allow all
namespaces" branch) instead of prefixing it with `["users", user_id]`:
at `user_id = "alice"`, `["public"]` comes back as `["public"]`, not
`["users", "alice", "public"]`. -/
theorem c2_scoping_not_prefixed :
    applyUserNamespaceScoping "alice" [] = ["users", "alice"]
    ∧ applyUserNamespaceScoping "alice" ["users", "alice", "notes"]
        = ["users", "alice", "notes"]
    ∧ applyUserNamespaceScoping "alice" ["public"] = ["public"]
    ∧ (["public"] : List String) ≠ ["users", "alice", "public"] := by
  refine ⟨rfl, rfl, rfl, ?_⟩; decide

/-- C3: whenever the runtime context is present (a `DragonAgentContext` or
a dict), the base-prompt resolution assigns the context's `system_prompt`
unconditionally, so a non-empty prompt in the turn's configuration object
is overridden: with config prompt `"A"` and context prompt `"B"` the base
instructions are `"B"`; with config prompt `"A"` and a context whose
prompt is unset they are the default, not `"A"`; `"A"` only wins when no
context object is recognised. -/
theorem c3_config_prompt_overridden :
    resolveBasePrompt (some { promptSystemPrompt := some "A" }) (.dict (some "B"))
        "DEFAULT" = "B"
    ∧ resolveBasePrompt (some { promptSystemPrompt := some "A" }) (.structured none)
        "DEFAULT" = "DEFAULT"
    ∧ resolveBasePrompt (some { promptSystemPrompt := some "A" }) .missing
        "DEFAULT" = "A"
    ∧ ("B" : String) ≠ "A" := by
  refine ⟨rfl, rfl, rfl, ?_⟩; decide

/-- A character admitted by the tool-name pattern is never whitespace. -/
theorem isToolNameChar_not_whitespace {c : Char} (h : isToolNameChar c = true) :
    c.isWhitespace = false := by
  cases hw : c.isWhitespace with
  | false => rfl
  | true =>
    exfalso
    have hw' : ((c = ' ' ∨ c = '\t') ∨ c = '\x0d') ∨ c = '\n' := by
      simpa [Char.isWhitespace] using hw
    rcases hw' with ((h' | h') | h') | h' <;> subst h' <;>
      exact absurd h (by decide)

/-- `pyStrip` is the identity when neither end of the list satisfies the
predicate. -/
theorem pyStrip_eq_self (p : Char → Bool) (l : List Char)
    (h1 : ∀ c, l.head? = some c → p c = false)
    (h2 : ∀ c, l.getLast? = some c → p c = false) :
    pyStrip p l = l := by
  unfold pyStrip
  have d1 : l.dropWhile p = l := by
    cases l with
    | nil => rfl
    | cons a as => rw [List.dropWhile_cons, if_neg]; simp [h1 a rfl]
  rw [d1]
  have d2 : l.reverse.dropWhile p = l.reverse := by
    cases hr : l.reverse with
    | nil => rfl
    | cons a as =>
      rw [List.dropWhile_cons, if_neg]
      have hl : l.getLast? = some a := by
        rw [List.getLast?_eq_head?_reverse, hr]; rfl
      simp [h2 a hl]
  rw [d2, List.reverse_reverse]

/-- `collapseRuns` is the identity on lists of valid characters. -/
theorem collapseRuns_eq_self (valid : Char → Bool) (b : Bool) (l : List Char)
    (h : ∀ c ∈ l, valid c = true) : collapseRuns valid b l = l := by
  induction l generalizing b with
  | nil => rfl
  | cons a as ih =>
    simp only [collapseRuns]
    rw [if_pos (h a (List.mem_cons_self a as)),
      ih false (fun c hc => h c (List.mem_cons_of_mem _ hc))]

/-- The final pattern check of the sanitizer yields either the fallback
`"tool"` or a pattern-checked list. -/
theorem sanitizeFinalCheck_shape (S : List Char) (C : Bool) :
    (if matchesPatternChars S then (S, C) else ("tool".toList, true))
        = ("tool".toList, true)
    ∨ ∃ l b, matchesPatternChars l = true
        ∧ (if matchesPatternChars S then (S, C) else ("tool".toList, true)) = (l, b) := by
  split
  · next h => exact Or.inr ⟨_, _, h, rfl⟩
  · exact Or.inl rfl

/-- Whatever the input, the sanitizer core returns either the fallback
`"tool"` or a list it has itself checked against the pattern. -/
theorem sanitizeToolNameChars_shape (cs : List Char) :
    sanitizeToolNameChars cs = ("tool".toList, true)
    ∨ ∃ l b, matchesPatternChars l = true ∧ sanitizeToolNameChars cs = (l, b) := by
  simp only [sanitizeToolNameChars]
  split
  · exact Or.inl rfl
  · exact sanitizeFinalCheck_shape _ _

/-- The sanitized name always matches `^[A-Za-z0-9_-]{1,64}$`. -/
theorem sanitizeToolName_matches (name : String) :
    matchesToolNamePattern (sanitizeToolName name).1 = true := by
  unfold sanitizeToolName matchesToolNamePattern
  rcases sanitizeToolNameChars_shape name.toList with h | ⟨l, b, hm, h⟩ <;> rw [h]
  · decide
  · exact hm

/-- C7: for every input string the name sanitizer is total (a Lean
function) and returns a name matching `^[A-Za-z0-9_-]{1,64}$`; hence every
successfully built tool's canonical name matches that pattern. -/
theorem c7_sanitizer_total_safe :
    (∀ name : String, matchesToolNamePattern (sanitizeToolName name).1 = true)
    ∧ ∀ cfg tool, buildToolFromConfig cfg = .ok tool →
        matchesToolNamePattern tool.canonicalName = true := by
  refine ⟨sanitizeToolName_matches, ?_⟩
  intro cfg tool h
  simp only [buildToolFromConfig] at h
  split at h
  · exact Except.noConfusion h
  · have h' := Except.ok.inj h
    rw [← h']
    exact sanitizeToolName_matches cfg.name

/-- Witness for C7's second conjunct at a concrete built tool. -/
theorem c7_sanitizer_total_safe_witness :
    matchesToolNamePattern
      (CompiledTool.mk "kb-search" "kb-search" "desc"
        [⟨"user_id", "user-id", true, some "string"⟩]).canonicalName = true :=
  c7_sanitizer_total_safe.2
    { name := "kb-search", description := "desc", url := "https://example.com/webhook",
      schemaProps := [("user-id", some "string")], schemaRequired := ["user-id"] }
    (CompiledTool.mk "kb-search" "kb-search" "desc"
      [⟨"user_id", "user-id", true, some "string"⟩]) rfl

/-- A `getLast?` hit is a member of the list. -/
theorem mem_of_getLast?_eq {α : Type} {l : List α} {a : α}
    (h : l.getLast? = some a) : a ∈ l := by
  obtain ⟨hne, rfl⟩ := List.mem_getLast?_eq_getLast (l := l) (x := a) (by rw [h]; rfl)
  exact List.getLast_mem hne

/-- C8 counterexample: `"_"` matches `^[A-Za-z0-9_-]{1,64}$`, yet the
sanitizer does not return it unchanged — the `strip("_")` step empties it
and the fallback `("tool", changed=true)` is produced. -/
theorem c8_counterexample_underscore :
    matchesToolNamePattern "_" = true
    ∧ sanitizeToolName "_" = ("tool", true)
    ∧ sanitizeToolName "_" ≠ ("_", false) := by
  refine ⟨by decide, by decide, by decide⟩

/-- C8 amended: a name matching the identifier pattern whose first
character is neither `'_'` nor `'-'` and whose last character is not `'_'`
is returned unchanged with `changed = false` (names with a leading or
trailing underscore are stripped, and a leading dash is prefixed, all with
`changed = true`); the empty string returns `("tool", true)`. -/
theorem c8_valid_names_unchanged :
    (∀ s : String, matchesToolNamePattern s = true →
      s.toList.head? ≠ some '_' → s.toList.head? ≠ some '-' →
      s.toList.getLast? ≠ some '_' →
      sanitizeToolName s = (s, false))
    ∧ sanitizeToolName "" = ("tool", true) := by
  constructor
  · intro s hm h1 h2 h3
    have hm' : matchesPatternChars s.toList = true := hm
    have hprop : ¬s.toList = [] ∧ s.toList.length ≤ 64
        ∧ ∀ c ∈ s.toList, isToolNameChar c = true := by
      simpa [matchesPatternChars, List.isEmpty_iff, List.all_eq_true, and_assoc]
        using hm'
    obtain ⟨hne, hlen, hall⟩ := hprop
    have hA : pyStrip Char.isWhitespace s.toList = s.toList :=
      pyStrip_eq_self _ _
        (fun c hc => isToolNameChar_not_whitespace
          (hall c (List.mem_of_mem_head? (by rw [hc]; rfl))))
        (fun c hc => isToolNameChar_not_whitespace (hall c (mem_of_getLast?_eq hc)))
    have hB : collapseRuns isToolNameChar false s.toList = s.toList :=
      collapseRuns_eq_self _ _ _ hall
    have hC : pyStrip (fun c => c == '_') s.toList = s.toList := by
      refine pyStrip_eq_self _ _ ?_ ?_
      · intro c hc
        have : c ≠ '_' := fun e => h1 (e ▸ hc)
        simp [this]
      · intro c hc
        have : c ≠ '_' := fun e => h3 (e ▸ hc)
        simp [this]
    have hD : s.toList.take 64 = s.toList := List.take_of_length_le hlen
    have hie : s.toList.isEmpty = false :=
      Bool.eq_false_iff.mpr (fun h => hne (List.isEmpty_iff.mp h))
    have hE : ¬s.toList.headD ' ' = '-' := by
      intro he
      rw [List.headD_eq_head?_getD] at he
      cases hh : s.toList.head? with
      | none => exact hne (List.head?_eq_none_iff.mp hh)
      | some c =>
        rw [hh] at he
        simp only [Option.getD_some] at he
        exact h2 (by rw [hh, he])
    have hF : (s.toList != s.toList) = false := by simp
    show (let r := sanitizeToolNameChars s.toList; ((String.mk r.1, r.2) : String × Bool))
        = (s, false)
    simp only [sanitizeToolNameChars, hA, hB, hC, hie, hF]
    simp only [Bool.false_eq_true, if_false, hD]
    rw [if_neg hE, if_pos hm']
    simp only [hF]
    rfl
  · decide

/-- Witness for C8's amended statement at the valid name `"a-b"`. -/
theorem c8_valid_names_unchanged_witness :
    matchesToolNamePattern "a-b" = true ∧ sanitizeToolName "a-b" = ("a-b", false) :=
  ⟨by decide, c8_valid_names_unchanged.1 "a-b" (by decide) (by decide) (by decide)
    (by decide)⟩

/-- Swapping the branches of an `ite` on a negated boolean. -/
theorem ite_not_swap {α : Type} (b : Bool) (x y : α) :
    (if (!b) = true then x else y) = (if b = true then y else x) := by
  cases b <;> rfl

/-- C5 counterexample: with the single dynamic tool `"t"` and a history
whose only `"t"` tool-result lies before the last assistant turn, the
claim requires forcing `"t"`, but the source scans the whole history, so
the stale result suppresses forcing and the resolved choice is `auto`. -/
theorem c5_counterexample_stale_result :
    resolveToolChoice [Msg.tool "r" "1" "t" .success, Msg.ai "" []]
        [⟨"t", ""⟩] none = some ToolChoice.auto
    ∧ some ToolChoice.auto ≠ some (ToolChoice.forced "t") := by
  exact ⟨rfl, by decide⟩

/-- The tool-choice policy as the amended claim states it: with a
non-empty dynamic spec list, a tool-result named like a dynamic tool
anywhere in the history yields the caller's original choice (defaulting to
automatic); with no such result anywhere, force the single dynamic tool by
name, or fall back to automatic when several exist. -/
def forcingChoiceSpec (messages : List Msg) (toolSpecs : List LlmToolSpec)
    (originalChoice : Option ToolChoice) : Option ToolChoice :=
  if toolSpecs.isEmpty then none
  else
    let toolNames := toolSpecs.map (·.functionName)
    if messages.any (isDynamicToolResult toolNames) then
      some (originalChoice.getD .auto)
    else
      match toolNames with
      | [n] => some (.forced n)
      | _ => some .auto

/-- C5 amended: the resolved tool choice equals the amended-claim policy —
forcing is suppressed by a matching tool-result anywhere in the history,
not only since the last assistant turn. -/
theorem c5_tool_choice_whole_history (messages : List Msg)
    (toolSpecs : List LlmToolSpec) (originalChoice : Option ToolChoice) :
    resolveToolChoice messages toolSpecs originalChoice
      = forcingChoiceSpec messages toolSpecs originalChoice := by
  cases toolSpecs with
  | nil => rfl
  | cons a as =>
    simp only [resolveToolChoice, forcingChoiceSpec, shouldForceTool,
      List.any_reverse, List.map_cons, List.isEmpty_cons, Bool.false_eq_true,
      if_false]
    rw [ite_not_swap]

/-- The `_do_post` result shape as the amended claim states it, by case on
the observable outcome: transport failure, HTTP status in `[400, 600)`,
JSON-object body (with `elapsed_ms` injected when absent), non-object JSON
body, and non-JSON body (which also carries `elapsed_ms`). -/
def doPostSpecShape (url : String) (timeoutVal : JValue) (outcome : HttpOutcome)
    (elapsedMs : Nat) : List (String × JValue) :=
  match outcome with
  | .exn msg excType =>
    [("status", .str "error"), ("error", .str msg), ("error_type", .str excType),
     ("url", .str url), ("timeout", timeoutVal), ("elapsed_ms", .int elapsedMs)]
  | .resp code text jsonData =>
    if 400 ≤ code ∧ code < 600 then
      [("status", .str "error"), ("error", .str (httpErrorText code url)),
       ("error_type", .str "HTTPError"), ("status_code", .int code),
       ("body", .str text), ("url", .str url), ("elapsed_ms", .int elapsedMs)]
    else
      match jsonData with
      | some (.obj kvs) => setdefaultKey kvs "elapsed_ms" (.int elapsedMs)
      | some d => [("status", .str "ok"), ("data", d), ("elapsed_ms", .int elapsedMs)]
      | none =>
        [("status", .str "ok"), ("status_code", .int code), ("text", .str text),
         ("elapsed_ms", .int elapsedMs)]

/-- C6 counterexample: on a 2xx response with a non-JSON body the result
also carries `elapsed_ms`, not just `{status, status_code, text}`; and a
`304` response — non-2xx but below `400` — takes the success path
(`raise_for_status` only raises for `[400, 600)`), so its status field is
`"ok"`, not `"error"`. -/
theorem c6_counterexample_shape :
    ((doPost "https://h/p" (.arr [.int 10, .int 30]) (.resp 200 "hello" none) 7).map
      Prod.fst) = ["status", "status_code", "text", "elapsed_ms"]
    ∧ (["status", "status_code", "text", "elapsed_ms"] : List String)
        ≠ ["status", "status_code", "text"]
    ∧ statusValue (doPost "https://h/p" (.arr [.int 10, .int 30]) (.resp 304 "" none) 7)
        = some "ok"
    ∧ (some "ok" : Option String) ≠ some "error" := by
  exact ⟨rfl, by decide, rfl, by decide⟩

/-- C6 amended: the webhook POST closure is total and its result always
has the amended claim's shape — structured error payloads for transport
failures (a timeout's `error_type` is the exception's name, `"Timeout"`)
and for HTTP statuses in `[400, 600)`, and success payloads carrying
`elapsed_ms` in every branch. -/
theorem c6_post_result_shape (url : String) (timeoutVal : JValue)
    (outcome : HttpOutcome) (elapsedMs : Nat) :
    doPost url timeoutVal outcome elapsedMs
      = doPostSpecShape url timeoutVal outcome elapsedMs := by
  cases outcome with
  | exn msg excType => rfl
  | resp code text jsonData =>
    by_cases hp : 400 ≤ code ∧ code < 600
    · have hb : raisesForStatus code = true := by
        simp [raisesForStatus, hp.1, hp.2]
      simp [doPost, doPostSpecShape, hb, hp]
    · have hb : raisesForStatus code = false := by
        refine Bool.eq_false_iff.mpr (fun h => hp ?_)
        simpa [raisesForStatus] using h
      simp only [doPost, doPostSpecShape, hb, Bool.false_eq_true, if_false,
        if_neg hp]
      cases jsonData with
      | none => rfl
      | some d => cases d <;> rfl

/-- Every compiled field's alias is the original property name, in
order. -/
theorem compileFieldsAux_origNames (required : List String)
    (props : List (String × Option String)) (used : List String) :
    (compileFieldsAux required props used).map (·.origName) = props.map Prod.fst := by
  induction props generalizing used with
  | nil => rfl
  | cons p ps ih => simp [compileFieldsAux, ih]

/-- Every validated pair is keyed by the original name of one of the
fields. -/
theorem validatedPairs_keys (input : List (String × JValue)) :
    ∀ (fields : List FieldSpec) (vals : List (String × JValue)),
      validatedPairs input fields = .ok vals →
      ∀ kv ∈ vals, kv.1 ∈ fields.map (·.origName) := by
  intro fields
  induction fields with
  | nil =>
    intro vals h kv hkv
    simp only [validatedPairs] at h
    obtain rfl := Except.ok.inj h
    simp at hkv
  | cons f fs ih =>
    intro vals h kv hkv
    simp only [validatedPairs] at h
    cases hv : validateField input f with
    | error e => rw [hv] at h; exact Except.noConfusion h
    | ok v =>
      rw [hv] at h
      cases hr : validatedPairs input fs with
      | error e => rw [hr] at h; exact Except.noConfusion h
      | ok rest =>
        rw [hr] at h
        obtain rfl := Except.ok.inj h
        rcases List.mem_cons.mp hkv with rfl | htail
        · simp
        · exact List.mem_cons_of_mem _ (ih rest hr kv htail)

/-- C9: the compiled schema round-trips: building the tool for the
`{"user-id": string, required}` schema and invoking with
`{"user-id": "abc"}` serializes the POST body exactly as
`{"user-id": "abc"}`; in general each compiled field's alias is the
original property name, and every serialized payload is keyed by original
property names with null-valued fields dropped. -/
theorem c9_payload_original_keys :
    ((buildToolFromConfig
        { name := "kb-search", url := "https://example.com/webhook",
          schemaProps := [("user-id", some "string")],
          schemaRequired := ["user-id"] }).map
      (fun t => outboundPostBody t [("user-id", JValue.str "abc")]))
        = Except.ok (Except.ok [("user-id", JValue.str "abc")])
    ∧ (∀ props required,
        (compileFields props required).map (·.origName) = props.map Prod.fst)
    ∧ ∀ fields input payload, materializeArgs fields input = .ok payload →
        ∀ kv ∈ payload, kv.1 ∈ fields.map (·.origName) ∧ kv.2 ≠ JValue.null := by
  refine ⟨rfl, fun props required => compileFieldsAux_origNames required props [], ?_⟩
  intro fields input payload h kv hkv
  simp only [materializeArgs] at h
  cases hv : validatedPairs input fields with
  | error e => rw [hv] at h; exact Except.noConfusion h
  | ok vals =>
    rw [hv] at h
    obtain rfl := Except.ok.inj h
    have hmem := List.mem_filter.mp hkv
    refine ⟨validatedPairs_keys input fields vals hv kv hmem.1, ?_⟩
    intro hnull
    rw [hnull] at hmem
    exact Bool.noConfusion hmem.2

/-- Witness for C9's payload conjunct at the concrete `"user-id"`
schema. -/
theorem c9_payload_original_keys_witness :
    ("user-id", JValue.str "abc").1
        ∈ ((compileFields [("user-id", some "string")] ["user-id"]).map (·.origName))
    ∧ ("user-id", JValue.str "abc").2 ≠ JValue.null :=
  c9_payload_original_keys.2.2
    (compileFields [("user-id", some "string")] ["user-id"])
    [("user-id", JValue.str "abc")] [("user-id", JValue.str "abc")] rfl
    ("user-id", JValue.str "abc") (List.mem_singleton.mpr rfl)

/-- `List.contains` through `decide`-membership, for `String`s. -/
theorem contains_eq_decide_mem (l : List String) (a : String) :
    l.contains a = decide (a ∈ l) :=
  List.elem_eq_mem a l

/-- `dedupFirstAux` produces a duplicate-free list disjoint from `seen`. -/
theorem dedupFirstAux_nodup (seen l : List String) :
    (dedupFirstAux seen l).Nodup ∧ ∀ x ∈ dedupFirstAux seen l, x ∉ seen := by
  induction l generalizing seen with
  | nil => exact ⟨List.nodup_nil, by simp [dedupFirstAux]⟩
  | cons x xs ih =>
    cases hc : seen.contains x with
    | true =>
      simp only [dedupFirstAux, hc, if_true]
      exact ih seen
    | false =>
      simp only [dedupFirstAux, hc, Bool.false_eq_true, if_false]
      obtain ⟨hnd, hnin⟩ := ih (seen ++ [x])
      have hxs : x ∉ seen := by
        rw [contains_eq_decide_mem] at hc
        simpa using hc
      refine ⟨List.nodup_cons.mpr ⟨fun hx => hnin x hx (by simp), hnd⟩, ?_⟩
      intro y hy
      rcases List.mem_cons.mp hy with rfl | htail
      · exact hxs
      · exact fun hys => hnin y htail (List.mem_append_left _ hys)

/-- The collected call ids of an assistant message are duplicate-free. -/
theorem collectCallIds_nodup (tcs : List PyToolCall) :
    (collectCallIds tcs).Nodup :=
  (dedupFirstAux_nodup [] _).1

/-- The validator only inserts messages: the input is a sublist of the
output. -/
theorem validate_sublist (msgs : List Msg) :
    msgs.Sublist (validateAndCleanMessages msgs) := by
  induction msgs with
  | nil => exact List.nil_sublist _
  | cons m rest ih =>
    cases m with
    | ai c tcs =>
      simp only [validateAndCleanMessages]
      exact List.Sublist.cons₂ _ (ih.trans (List.sublist_append_right _ _))
    | user c =>
      simp only [validateAndCleanMessages]
      exact List.Sublist.cons₂ _ ih
    | system c =>
      simp only [validateAndCleanMessages]
      exact List.Sublist.cons₂ _ ih
    | tool c tcid n st =>
      simp only [validateAndCleanMessages]
      exact List.Sublist.cons₂ _ ih

/-- C4 counterexample: for an assistant message with the single unmatched
call id `"a"`, the validator appends exactly the synthesized tool-result —
but with the default `success` status, since the source constructs the
`ToolMessage` without passing `status="error"`. -/
theorem c4_counterexample_status :
    validateAndCleanMessages [Msg.ai "x" [⟨"a", some "t"⟩]]
      = [Msg.ai "x" [⟨"a", some "t"⟩],
         Msg.tool (missingToolContent "t") "a" "t" MsgStatus.success]
    ∧ MsgStatus.success ≠ MsgStatus.error := by
  exact ⟨rfl, by decide⟩

/-- C4 amended: the validator never deletes or reorders input messages
(the input is a sublist of the output), and after each assistant message
it inserts, immediately after the message and before the following
messages, exactly one synthesized tool-result per unmatched call id
(`missingIds` is duplicate-free), each carrying the copied id and name,
the human-readable error content, and the default `success` status. -/
theorem c4_validator_synthesis :
    (∀ msgs : List Msg, msgs.Sublist (validateAndCleanMessages msgs))
    ∧ ∀ c tcs rest,
        validateAndCleanMessages (.ai c tcs :: rest)
          = .ai c tcs
              :: (((missingIds tcs rest).map (fun id =>
                    Msg.tool (missingToolContent (callName tcs id)) id
                      (callName tcs id) MsgStatus.success))
                ++ validateAndCleanMessages rest)
        ∧ (missingIds tcs rest).Nodup := by
  refine ⟨validate_sublist, fun c tcs rest => ⟨rfl, ?_⟩⟩
  exact (collectCallIds_nodup tcs).filter _

/-- The validator's insertions never change what the forward scan finds:
clean-up preserves `foundIds`. -/
theorem foundIds_validate (ids : List String) (l : List Msg) :
    foundIds ids (validateAndCleanMessages l) = foundIds ids l := by
  induction l with
  | nil => rfl
  | cons m rest ih =>
    cases m with
    | ai c tcs => rfl
    | user c => simp only [validateAndCleanMessages, foundIds, ih]
    | system c => simp only [validateAndCleanMessages, foundIds, ih]
    | tool c tcid n st =>
      simp only [validateAndCleanMessages, foundIds, ih]

/-- Scanning past a block of synthesized tool-results finds exactly their
ids, followed by whatever the tail yields. -/
theorem foundIds_synth_append (ids : List String) (tcs : List PyToolCall)
    (missing : List String) (tail : List Msg)
    (h : ∀ id ∈ missing, ids.contains id = true) :
    foundIds ids (missing.map (synthToolMsg tcs) ++ tail)
      = missing ++ foundIds ids tail := by
  induction missing with
  | nil => rfl
  | cons id ms ih =>
    simp only [List.map_cons, List.cons_append, synthToolMsg, foundIds,
      h id (List.mem_cons_self id ms), if_true, List.append_eq]
    rw [ih (fun i hi => h i (List.mem_cons_of_mem _ hi))]

/-- The validator passes a leading block of synthesized tool-results
through unchanged. -/
theorem validate_synth_append (tcs : List PyToolCall) (missing : List String)
    (l : List Msg) :
    validateAndCleanMessages (missing.map (synthToolMsg tcs) ++ l)
      = missing.map (synthToolMsg tcs) ++ validateAndCleanMessages l := by
  induction missing with
  | nil => rfl
  | cons id ms ih =>
    simp only [List.map_cons, List.cons_append, synthToolMsg,
      validateAndCleanMessages, List.append_eq]
    rw [ih]

/-- C10: the conversation validator is idempotent — cleaning a cleaned
message sequence changes nothing, so running it on an already-clean
sequence is a no-op. -/
theorem c10_validator_idempotent (msgs : List Msg) :
    validateAndCleanMessages (validateAndCleanMessages msgs)
      = validateAndCleanMessages msgs := by
  induction msgs with
  | nil => rfl
  | cons m rest ih =>
    cases m with
    | user c => simp only [validateAndCleanMessages]; rw [ih]
    | system c => simp only [validateAndCleanMessages]; rw [ih]
    | tool c tcid n st => simp only [validateAndCleanMessages]; rw [ih]
    | ai c tcs =>
      simp only [validateAndCleanMessages]
      have hM : ∀ id ∈ missingIds tcs rest, (collectCallIds tcs).contains id = true := by
        intro id hid
        have := (List.mem_filter.mp hid).1
        rw [contains_eq_decide_mem]
        simpa using this
      have h2 : foundIds (collectCallIds tcs)
          ((missingIds tcs rest).map (synthToolMsg tcs) ++ validateAndCleanMessages rest)
          = missingIds tcs rest ++ foundIds (collectCallIds tcs) rest := by
        rw [foundIds_synth_append _ _ _ _ hM, foundIds_validate]
      have h3 : missingIds tcs
          ((missingIds tcs rest).map (synthToolMsg tcs) ++ validateAndCleanMessages rest)
          = [] := by
        simp only [missingIds] at h2 ⊢
        rw [h2]
        refine List.filter_eq_nil_iff.mpr ?_
        intro a ha
        simp only [Bool.not_eq_true', Bool.not_eq_false]
        rw [contains_eq_decide_mem]
        refine decide_eq_true ?_
        by_cases hf : a ∈ foundIds (collectCallIds tcs) rest
        · exact List.mem_append_right _ hf
        · refine List.mem_append_left _ (List.mem_filter.mpr ⟨ha, ?_⟩)
          rw [contains_eq_decide_mem]
          simpa using hf
      rw [h3]
      simp only [List.map_nil, List.nil_append]
      rw [validate_synth_append, ih]

end DragonChat
